import Mathlib

/-!
Verification development for the electrical-panel acoustic monitor
(`electrical_panel_monitor.py`).

The real-time pipeline is embedded shallowly:

* audio blocks are abstract values of a type `α` (their sample payload is
  irrelevant to the control flow; where sample values matter, a block is a
  `List ℤ` of 16-bit signed samples);
* the filtered RMS energy of a block is an exact rational fed to the state
  machine as an input, mirroring how `monitor_loop` consumes one energy
  reading per block;
* wall-clock instants (`time.time()` values) are exact rationals;
* the `queue.Queue` hand-off is a FIFO list of messages, where `none` is the
  `None` end-of-clip sentinel pushed by `stop_recording`;
* the `collections.deque` with `maxlen` is a list that evicts from the front.
-/

namespace PanelQC

/-- `collections.deque` append with a `maxlen` bound: the new element goes to
the back, and elements are evicted from the front while the length exceeds
the bound (`self.pre_buffer.append(data)`, line 198, on the deque built at
line 38). -/
def dequeAppend {α : Type} (maxlen : ℕ) (buf : List α) (x : α) : List α :=
  let b := buf ++ [x]
  if maxlen < b.length then b.drop (b.length - maxlen) else b

/-- The last `n` elements of a list (all of it when it is shorter). -/
def lastN {α : Type} (n : ℕ) (l : List α) : List α :=
  l.drop (l.length - n)

/-- Ring-buffer capacity as built at line 38:
`deque(maxlen=int(self.PRE_RECORD_BUFFER * self.RATE / self.CHUNK))`.
Python `int()` truncates the (non-negative) quotient toward zero. -/
def preBufferCapacity (pre_record_seconds : ℚ) (rate chunk : ℕ) : ℕ :=
  (⌊pre_record_seconds * (rate : ℚ) / (chunk : ℚ)⌋).toNat

/-- Observable side effects of the trigger state machine: a recording start
(carrying the ring-buffer seed flushed to the queue) and a recording stop
(the finalize: sentinel pushed, detection counted). -/
inductive Ev (α : Type) : Type
  | start (seed : List α) : Ev α
  | stop : Ev α
deriving DecidableEq

/-- The configuration values the monitor loop reads (lines 26, 30, 38). -/
structure Config where
  trigger_threshold : ℚ
  min_silence_time : ℚ
  pre_buffer_maxlen : ℕ

/-- The mutable state touched by `monitor_loop` / `start_recording` /
`stop_recording`: the `recording` flag, the pre-roll deque, the local
`silence_start_time`, the `detections` counter, the FIFO contents pushed so
far onto `audio_queue` (`none` is the `None` sentinel), and the trace of
start/stop side effects (for stating temporal properties). -/
structure MonState (α : Type) where
  recording : Bool
  pre_buffer : List α
  silence_start_time : Option ℚ
  detections : ℕ
  audio_queue : List (Option α)
  events : List (Ev α)
deriving DecidableEq

/-- State at `__init__` / loop entry: not recording, empty deque, unset
silence timer, zero detections, empty queue. -/
def initState {α : Type} : MonState α :=
  { recording := false, pre_buffer := [], silence_start_time := none,
    detections := 0, audio_queue := [], events := [] }

/-- `start_recording` (lines 222-226): set the flag and flush the whole
pre-roll deque, oldest first, onto the audio queue. -/
def start_recording {α : Type} (s : MonState α) : MonState α :=
  { s with recording := true,
           audio_queue := s.audio_queue ++ s.pre_buffer.map some,
           events := s.events ++ [Ev.start s.pre_buffer] }

/-- `stop_recording` (lines 228-232): clear the flag, count the detection,
push the `None` end-of-clip sentinel. -/
def stop_recording {α : Type} (s : MonState α) : MonState α :=
  { s with recording := false,
           detections := s.detections + 1,
           audio_queue := s.audio_queue ++ [none],
           events := s.events ++ [Ev.stop] }

/-- One iteration of `monitor_loop` (lines 196-216) on a block `data` whose
filtered RMS is `rms`, at wall-clock time `t`:
append to the pre-roll deque (line 198); if not recording and `rms >
threshold`, start recording and unset the silence timer (lines 201-204); then
if recording, push the block (line 207) and run the silence/hysteresis logic
(lines 209-216). -/
def monStep {α : Type} (cfg : Config) (s : MonState α) (data : α)
    (rms t : ℚ) : MonState α :=
  let s1 := { s with
    pre_buffer := dequeAppend cfg.pre_buffer_maxlen s.pre_buffer data }
  let s2 :=
    if s1.recording = false ∧ cfg.trigger_threshold < rms then
      { start_recording s1 with silence_start_time := none }
    else s1
  if s2.recording then
    let s3 := { s2 with audio_queue := s2.audio_queue ++ [some data] }
    if rms < cfg.trigger_threshold then
      match s3.silence_start_time with
      | none => { s3 with silence_start_time := some t }
      | some t0 =>
        if cfg.min_silence_time < t - t0 then
          { stop_recording s3 with silence_start_time := none }
        else s3
    else { s3 with silence_start_time := none }
  else s2

/-- Run `monitor_loop` over a finite input trace of
(block, filtered RMS, wall-clock time) triples. -/
def monRun {α : Type} (cfg : Config) (s : MonState α)
    (tr : List (α × ℚ × ℚ)) : MonState α :=
  tr.foldl (fun s x => monStep cfg s x.1 x.2.1 x.2.2) s

/-! ### Ring-buffer lemmas -/

theorem lastN_length_le {α : Type} (n : ℕ) (l : List α) :
    (lastN n l).length ≤ n := by
  simp only [lastN, List.length_drop]
  omega

theorem dequeAppend_eq_lastN {α : Type} (n : ℕ) (buf : List α) (x : α) :
    dequeAppend n buf x = lastN n (buf ++ [x]) := by
  simp only [dequeAppend, lastN]
  by_cases h : n < (buf ++ [x]).length
  · rw [if_pos h]
  · rw [if_neg h]
    have h0 : (buf ++ [x]).length - n = 0 := by
      simp only [List.length_append, List.length_singleton] at h ⊢
      omega
    rw [h0, List.drop_zero]

theorem lastN_append_one {α : Type} (n : ℕ) (l : List α) (x : α) :
    lastN n (lastN n l ++ [x]) = lastN n (l ++ [x]) := by
  rcases Nat.eq_zero_or_pos n with h0 | hn
  · subst h0
    simp [lastN]
  · by_cases hm : l.length ≤ n
    · have : l.length - n = 0 := by omega
      simp [lastN, this]
    · push_neg at hm
      simp only [lastN, List.drop_append_eq_append_drop, List.length_append,
        List.length_singleton, List.length_drop, List.drop_drop]
      congr 1
      · congr 1
        omega
      · congr 1
        omega

/-! ### Branch characterizations of one `monitor_loop` iteration -/

theorem monStep_listen_quiet {α : Type} (cfg : Config) (s : MonState α)
    (d : α) (rms t : ℚ) (hr : s.recording = false)
    (hq : ¬ cfg.trigger_threshold < rms) :
    monStep cfg s d rms t =
      { s with pre_buffer := dequeAppend cfg.pre_buffer_maxlen s.pre_buffer d } := by
  simp [monStep, hr, hq]

theorem monStep_listen_trigger {α : Type} (cfg : Config) (s : MonState α)
    (d : α) (rms t : ℚ) (hr : s.recording = false)
    (hq : cfg.trigger_threshold < rms) :
    monStep cfg s d rms t =
      { s with recording := true,
               pre_buffer := dequeAppend cfg.pre_buffer_maxlen s.pre_buffer d,
               silence_start_time := none,
               audio_queue := s.audio_queue
                 ++ (dequeAppend cfg.pre_buffer_maxlen s.pre_buffer d).map some
                 ++ [some d],
               events := s.events
                 ++ [Ev.start (dequeAppend cfg.pre_buffer_maxlen s.pre_buffer d)] } := by
  have hq2 : ¬ rms < cfg.trigger_threshold := not_lt.mpr (le_of_lt hq)
  simp [monStep, start_recording, hr, hq, hq2]

theorem monStep_rec_loud {α : Type} (cfg : Config) (s : MonState α)
    (d : α) (rms t : ℚ) (hr : s.recording = true)
    (hq : ¬ rms < cfg.trigger_threshold) :
    monStep cfg s d rms t =
      { s with pre_buffer := dequeAppend cfg.pre_buffer_maxlen s.pre_buffer d,
               silence_start_time := none,
               audio_queue := s.audio_queue ++ [some d] } := by
  simp [monStep, hr, hq]

theorem monStep_rec_silent_unset {α : Type} (cfg : Config) (s : MonState α)
    (d : α) (rms t : ℚ) (hr : s.recording = true)
    (hq : rms < cfg.trigger_threshold) (hs : s.silence_start_time = none) :
    monStep cfg s d rms t =
      { s with pre_buffer := dequeAppend cfg.pre_buffer_maxlen s.pre_buffer d,
               silence_start_time := some t,
               audio_queue := s.audio_queue ++ [some d] } := by
  simp [monStep, hr, hq, hs]

theorem monStep_rec_silent_keep {α : Type} (cfg : Config) (s : MonState α)
    (d : α) (rms t t0 : ℚ) (hr : s.recording = true)
    (hq : rms < cfg.trigger_threshold) (hs : s.silence_start_time = some t0)
    (ht : ¬ cfg.min_silence_time < t - t0) :
    monStep cfg s d rms t =
      { s with pre_buffer := dequeAppend cfg.pre_buffer_maxlen s.pre_buffer d,
               audio_queue := s.audio_queue ++ [some d] } := by
  simp [monStep, hr, hq, hs, ht]

theorem monStep_rec_silent_stop {α : Type} (cfg : Config) (s : MonState α)
    (d : α) (rms t t0 : ℚ) (hr : s.recording = true)
    (hq : rms < cfg.trigger_threshold) (hs : s.silence_start_time = some t0)
    (ht : cfg.min_silence_time < t - t0) :
    monStep cfg s d rms t =
      { s with recording := false,
               pre_buffer := dequeAppend cfg.pre_buffer_maxlen s.pre_buffer d,
               silence_start_time := none,
               detections := s.detections + 1,
               audio_queue := s.audio_queue ++ [some d] ++ [none],
               events := s.events ++ [Ev.stop] } := by
  simp [monStep, stop_recording, hr, hq, hs, ht]

/-- Whatever branch runs, the pre-roll deque receives the current block
(line 198 precedes all trigger/silence logic) and is never cleared by
`start_recording` or `stop_recording`. -/
theorem monStep_pre_buffer {α : Type} (cfg : Config) (s : MonState α)
    (d : α) (rms t : ℚ) :
    (monStep cfg s d rms t).pre_buffer =
      dequeAppend cfg.pre_buffer_maxlen s.pre_buffer d := by
  by_cases hr : s.recording = true
  · by_cases hq : rms < cfg.trigger_threshold
    · cases hs : s.silence_start_time with
      | none => rw [monStep_rec_silent_unset cfg s d rms t hr hq hs]
      | some t0 =>
        by_cases ht : cfg.min_silence_time < t - t0
        · rw [monStep_rec_silent_stop cfg s d rms t t0 hr hq hs ht]
        · rw [monStep_rec_silent_keep cfg s d rms t t0 hr hq hs ht]
    · rw [monStep_rec_loud cfg s d rms t hr hq]
  · have hr2 : s.recording = false := by simpa using hr
    by_cases hq : cfg.trigger_threshold < rms
    · rw [monStep_listen_trigger cfg s d rms t hr2 hq]
    · rw [monStep_listen_quiet cfg s d rms t hr2 hq]

/-- The pre-roll deque always holds exactly the last `maxlen` blocks fed to
the loop, in arrival order. -/
theorem monRun_pre_buffer {α : Type} (cfg : Config) (s : MonState α)
    (tr : List (α × ℚ × ℚ)) (bs : List α)
    (h : s.pre_buffer = lastN cfg.pre_buffer_maxlen bs) :
    (monRun cfg s tr).pre_buffer =
      lastN cfg.pre_buffer_maxlen (bs ++ tr.map (fun x => x.1)) := by
  induction tr generalizing s bs with
  | nil => simpa [monRun] using h
  | cons hd tl ih =>
    have step : monRun cfg s (hd :: tl)
        = monRun cfg (monStep cfg s hd.1 hd.2.1 hd.2.2) tl := rfl
    rw [step]
    have hb : (monStep cfg s hd.1 hd.2.1 hd.2.2).pre_buffer
        = lastN cfg.pre_buffer_maxlen (bs ++ [hd.1]) := by
      rw [monStep_pre_buffer, h, dequeAppend_eq_lastN, lastN_append_one]
    have := ih (monStep cfg s hd.1 hd.2.1 hd.2.2) (bs ++ [hd.1]) hb
    simpa using this

/-! ### The writer thread (`audio_writer_thread`, lines 234-261)

The writer drains `audio_queue` in FIFO order; a `some` message appends the
block to `recording_data`, a `none` message finalizes the accumulated clip
(when nonempty) through `_save_recording`. The pair carried below is
(finalized clips so far, current `recording_data`). -/

/-- One message handled by `audio_writer_thread`: `none` finalizes the
nonempty accumulated clip (lines 248-258); `some b` appends (line 260). -/
def writerStep {α : Type} (st : List (List α) × List α) (m : Option α) :
    List (List α) × List α :=
  match m with
  | none => if st.2.isEmpty then st else (st.1 ++ [st.2], [])
  | some b => (st.1, st.2 ++ [b])

/-- The writer thread applied to a finite FIFO message sequence, starting
from `recording_data = []`. -/
def audio_writer_run {α : Type} (msgs : List (Option α)) :
    List (List α) × List α :=
  msgs.foldl writerStep ([], [])

/-- `clean_up` (lines 288-297) sets `writer_thread_stop_event` and joins the
writer; it pushes no message onto `audio_queue` — in particular no synthetic
end-of-clip sentinel. -/
def clean_up_queue_pushes {α : Type} : List (Option α) := []

/-- State of the writer at shutdown: it has consumed some FIFO prefix
`consumed` before observing the stop event, plus everything `clean_up`
pushes (nothing); the loop condition (line 242) then fails and the thread
exits, dropping its pending `recording_data` without saving. -/
def shutdownOutcome {α : Type} (consumed : List (Option α)) :
    List (List α) × List α :=
  audio_writer_run (consumed ++ clean_up_queue_pushes)

theorem writerRun_blocks {α : Type} (bs : List α) (acc : List (List α))
    (cur : List α) :
    (bs.map some).foldl writerStep (acc, cur) = (acc, cur ++ bs) := by
  induction bs generalizing cur with
  | nil => simp
  | cons b tl ih => simp [writerStep, ih]

/-! ### Start/stop side-effect traces -/

/-- Replay a start/stop side-effect trace from a `recording` flag: `some r`
means the trace is a legal alternation ending with flag `r`; `none` means it
contains a start while recording or a stop while listening. -/
def evalEvents {α : Type} : Bool → List (Ev α) → Option Bool
  | b, [] => some b
  | false, (Ev.start _) :: es => evalEvents true es
  | true, Ev.stop :: es => evalEvents false es
  | true, (Ev.start _) :: _ => none
  | false, Ev.stop :: _ => none

def isStopEv {α : Type} : Ev α → Bool
  | Ev.stop => true
  | Ev.start _ => false

def isStartEv {α : Type} : Ev α → Bool
  | Ev.stop => false
  | Ev.start _ => true

def countStop {α : Type} (es : List (Ev α)) : ℕ := es.countP isStopEv

def countStart {α : Type} (es : List (Ev α)) : ℕ := es.countP isStartEv

/-- Number of `None` end-of-clip sentinels pushed onto the queue. -/
def countNone {α : Type} (q : List (Option α)) : ℕ :=
  q.countP (fun m => m.isNone)

theorem evalEvents_append {α : Type} (b : Bool) (es es2 : List (Ev α)) :
    evalEvents b (es ++ es2)
      = (evalEvents b es).bind (fun r => evalEvents r es2) := by
  induction es generalizing b with
  | nil => cases b <;> rfl
  | cons hd tl ih =>
    cases b <;> cases hd <;> simp [evalEvents, ih]

/-- The safety invariant tying the side-effect trace to the machine state:
the trace is a legal Listening/Recording alternation ending in the current
flag, starts exceed stops exactly when a recording is open, and the
detection counter and the sentinel count in the queue both equal the number
of completed stops. -/
def machineInv {α : Type} (s : MonState α) : Prop :=
  evalEvents false s.events = some s.recording ∧
  countStart s.events = countStop s.events + (if s.recording then 1 else 0) ∧
  s.detections = countStop s.events ∧
  countNone s.audio_queue = countStop s.events

theorem countNone_map_some {α : Type} (l : List α) :
    countNone (l.map some) = 0 := by
  induction l with
  | nil => rfl
  | cons hd tl ih => simp [countNone, List.countP_cons, ih]

theorem monStep_machineInv {α : Type} (cfg : Config) (s : MonState α)
    (d : α) (rms t : ℚ) (h : machineInv s) :
    machineInv (monStep cfg s d rms t) := by
  obtain ⟨h1, h2, h3, h4⟩ := h
  by_cases hr : s.recording = true
  · rw [hr] at h1
    by_cases hq : rms < cfg.trigger_threshold
    · cases hs : s.silence_start_time with
      | none =>
        rw [monStep_rec_silent_unset cfg s d rms t hr hq hs]
        refine ⟨by simpa [hr] using h1, by simpa [hr] using h2, h3, ?_⟩
        simpa [countNone, List.countP_append] using h4
      | some t0 =>
        by_cases ht : cfg.min_silence_time < t - t0
        · rw [monStep_rec_silent_stop cfg s d rms t t0 hr hq hs ht]
          refine ⟨?_, ?_, ?_, ?_⟩
          · rw [evalEvents_append, h1]
            rfl
          · rw [hr] at h2
            simp only [countStart, countStop, List.countP_append] at h2 ⊢
            simp [isStartEv, isStopEv, h2]
          · simpa [countStop, List.countP_append, isStopEv] using h3
          · simp only [countNone, countStop, List.countP_append] at h4 ⊢
            simp [isStopEv, h4]
        · rw [monStep_rec_silent_keep cfg s d rms t t0 hr hq hs ht]
          refine ⟨by simpa [hr] using h1, by simpa [hr] using h2, h3, ?_⟩
          simpa [countNone, List.countP_append] using h4
    · rw [monStep_rec_loud cfg s d rms t hr hq]
      refine ⟨by simpa [hr] using h1, by simpa [hr] using h2, h3, ?_⟩
      simpa [countNone, List.countP_append] using h4
  · have hr2 : s.recording = false := by simpa using hr
    rw [hr2] at h1
    by_cases hq : cfg.trigger_threshold < rms
    · rw [monStep_listen_trigger cfg s d rms t hr2 hq]
      refine ⟨?_, ?_, ?_, ?_⟩
      · rw [evalEvents_append, h1]
        rfl
      · rw [hr2] at h2
        simp only [countStart, countStop, List.countP_append] at h2 ⊢
        simp [isStartEv, isStopEv, h2]
      · simpa [countStop, List.countP_append, isStopEv] using h3
      · simp only [countNone, countStop, List.countP_append] at h4 ⊢
        have hm := countNone_map_some ((dequeAppend cfg.pre_buffer_maxlen s.pre_buffer d))
        simp only [countNone] at hm
        simp [isStopEv, hm, h4]
    · rw [monStep_listen_quiet cfg s d rms t hr2 hq]
      exact ⟨by simpa [hr2] using h1, by simpa [hr2] using h2, h3, h4⟩

theorem monRun_machineInv {α : Type} (cfg : Config) (s : MonState α)
    (tr : List (α × ℚ × ℚ)) (h : machineInv s) :
    machineInv (monRun cfg s tr) := by
  induction tr generalizing s with
  | nil => simpa [monRun] using h
  | cons hd tl ih =>
    have step : monRun cfg s (hd :: tl)
        = monRun cfg (monStep cfg s hd.1 hd.2.1 hd.2.2) tl := rfl
    rw [step]
    exact ih _ (monStep_machineInv cfg s hd.1 hd.2.1 hd.2.2 h)

theorem initState_machineInv {α : Type} : machineInv (initState (α := α)) := by
  refine ⟨rfl, rfl, rfl, rfl⟩

/-! ### Frequency analysis (`analyze_frequencies`, lines 136-156)

The DFT itself (`np.fft.fft`) is an external numeric routine; its output is
abstracted as the list `mag` of per-bin magnitudes (`np.abs(fft)`), one
rational per bin. The bin-frequency layout (`np.fft.fftfreq`), the
nearest-bin selection (`np.argmin(np.abs(freqs - freq))`, first index on
ties), and the classification rule (line 153) are embedded exactly. -/

/-- `np.fft.fftfreq(n, 1/rate)` bin `i` carries the integer
`i` for `i ≤ (n-1)/2` and `i - n` afterwards. -/
def fftfreqVal (n i : ℕ) : ℤ :=
  if i ≤ (n - 1) / 2 then (i : ℤ) else (i : ℤ) - (n : ℤ)

/-- The list of analysis-bin frequencies, `fftfreqVal n i * rate / n`. -/
def fftfreqBins (n : ℕ) (rate : ℚ) : List ℚ :=
  (List.range n).map (fun i => (fftfreqVal n i : ℚ) * rate / (n : ℚ))

/-- First index of the minimum of a rational list, with the minimum value
(`np.argmin` keeps the first occurrence on ties). -/
def minWithIdx : List ℚ → Option (ℕ × ℚ)
  | [] => none
  | x :: xs =>
    match minWithIdx xs with
    | none => some (0, x)
    | some iv => if iv.2 < x then some (iv.1 + 1, iv.2) else some (0, x)

/-- `np.argmin(np.abs(freqs - freq))` (line 148). -/
def nearestIdx (n : ℕ) (rate : ℚ) (f : ℚ) : ℕ :=
  match minWithIdx ((fftfreqBins n rate).map (fun x => |x - f|)) with
  | none => 0
  | some iv => iv.1

/-- The magnitude the analysis reports for target `f`: the magnitude of the
bin nearest to `f` (line 149). -/
def nearestMagnitude (rate : ℚ) (mag : List ℚ) (f : ℚ) : ℚ :=
  mag.getD (nearestIdx mag.length rate f) 0

/-- Per-target body of the loop at lines 146-154: look up the nearest bin,
record `(freq, magnitude)`, and latch the detection flag when the magnitude
exceeds twice the mean magnitude. -/
def analyzeTargetStep (meanMag : ℚ) (n : ℕ) (rate : ℚ) (mag : List ℚ)
    (acc : Bool × List (ℚ × ℚ)) (f : ℚ) : Bool × List (ℚ × ℚ) :=
  let idx := nearestIdx n rate f
  let m := mag.getD idx 0
  ((if meanMag * 2 < m then true else acc.1), acc.2 ++ [(f, m)])

/-- `analyze_frequencies` on the magnitude spectrum `mag` of a clip:
returns the detection flag and the per-target `(freq, magnitude)` report. -/
def analyze_frequencies (rate : ℚ) (targets : List ℚ) (mag : List ℚ) :
    Bool × List (ℚ × ℚ) :=
  targets.foldl
    (analyzeTargetStep (mag.sum / (mag.length : ℚ)) mag.length rate mag)
    (false, [])

theorem minWithIdx_eq_none_iff (l : List ℚ) :
    minWithIdx l = none ↔ l = [] := by
  cases l with
  | nil => simp [minWithIdx]
  | cons x xs =>
    simp only [minWithIdx]
    cases minWithIdx xs with
    | none => simp
    | some iv =>
      by_cases h : iv.2 < x <;> simp [h]

theorem minWithIdx_spec (l : List ℚ) (i : ℕ) (v : ℚ)
    (h : minWithIdx l = some (i, v)) :
    i < l.length ∧ l.getD i 0 = v ∧ ∀ j < l.length, v ≤ l.getD j 0 := by
  induction l generalizing i v with
  | nil => simp [minWithIdx] at h
  | cons x xs ih =>
    simp only [minWithIdx] at h
    cases hm : minWithIdx xs with
    | none =>
      rw [hm] at h
      simp only [Option.some.injEq, Prod.mk.injEq] at h
      obtain ⟨hi, hv⟩ := h
      subst hi
      subst hv
      have hxs : xs = [] := (minWithIdx_eq_none_iff xs).1 hm
      subst hxs
      refine ⟨by simp, by simp, ?_⟩
      intro j hj
      have hj0 : j = 0 := by
        simp only [List.length_cons, List.length_nil] at hj
        omega
      subst hj0
      simp
    | some iv =>
      rw [hm] at h
      dsimp only at h
      obtain ⟨hlen, hget, hmin⟩ := ih iv.1 iv.2 (by rw [hm])
      by_cases hlt : iv.2 < x
      · rw [if_pos hlt] at h
        simp only [Option.some.injEq, Prod.mk.injEq] at h
        obtain ⟨hi, hv⟩ := h
        subst hi
        subst hv
        refine ⟨by simpa using hlen, by simpa using hget, ?_⟩
        intro j hj
        cases j with
        | zero => simpa using le_of_lt hlt
        | succ j =>
          simp only [List.getD_cons_succ]
          exact hmin j (by simpa using hj)
      · rw [if_neg hlt] at h
        simp only [Option.some.injEq, Prod.mk.injEq] at h
        obtain ⟨hi, hv⟩ := h
        subst hi
        subst hv
        refine ⟨by simp, by simp, ?_⟩
        intro j hj
        cases j with
        | zero => simp
        | succ j =>
          simp only [List.getD_cons_succ]
          exact le_trans (not_lt.mp hlt) (hmin j (by simpa using hj))

theorem analyze_foldl (meanMag : ℚ) (n : ℕ) (rate : ℚ) (mag : List ℚ)
    (targets : List ℚ) (b : Bool) (l : List (ℚ × ℚ)) :
    targets.foldl (analyzeTargetStep meanMag n rate mag) (b, l) =
      (b || targets.any
          (fun f => decide (meanMag * 2 < mag.getD (nearestIdx n rate f) 0)),
       l ++ targets.map (fun f => (f, mag.getD (nearestIdx n rate f) 0))) := by
  induction targets generalizing b l with
  | nil => simp
  | cons f tl ih =>
    rw [List.foldl_cons, ih]
    by_cases hc : meanMag * 2 < mag.getD (nearestIdx n rate f) 0 <;>
      simp [analyzeTargetStep, hc, Bool.or_assoc, Bool.or_comm, Bool.or_left_comm]

/-! ### RMS energy (`calculate_rms`, lines 96-103) -/

/-- `np.nan_to_num` on a decoded 16-bit integer sample: integers are never
NaN or Infinity, so the replacement is the identity (and it preserves the
int16 dtype). -/
def nan_to_num (x : ℤ) : ℤ := x

/-- Wrap an integer into the signed 16-bit range, as numpy int16 arithmetic
does on overflow: the result is `((v + 2^15) mod 2^16) - 2^15`, always in
[-32768, 32767]. -/
def int16wrap (v : ℤ) : ℤ := ((v + 32768) % 65536) - 32768

/-- `calculate_rms` on a decoded block of 16-bit signed samples
(`np.frombuffer(data, dtype=np.int16)` yields int16 integers).
`audio_data ** 2` stays in int16 and wraps modulo 2^16 — which is why the
`squared < 0` guard at line 101 is live: the float64 mean of the wrapped
squares can be negative. `np.isnan(squared)` is `False` for every exact
mean, so the guard is exactly the `squared < 0` test; the square root is
taken in `ℝ`. -/
noncomputable def calculate_rms (data : List ℤ) : ℝ :=
  if data.length = 0 then 0
  else if ((data.map fun x =>
        ((int16wrap (nan_to_num x * nan_to_num x) : ℤ) : ℚ)).sum
      / (data.length : ℚ)) < 0 then 0
  else Real.sqrt (((data.map fun x =>
        ((int16wrap (nan_to_num x * nan_to_num x) : ℤ) : ℚ)).sum
      / (data.length : ℚ) : ℚ) : ℝ)

/-! ### Further auxiliary lemmas -/

theorem foldl_dequeAppend_lastN {α : Type} (N : ℕ) (as bs : List α) :
    bs.foldl (dequeAppend N) (lastN N as) = lastN N (as ++ bs) := by
  induction bs generalizing as with
  | nil => simp
  | cons b tl ih =>
    rw [List.foldl_cons, dequeAppend_eq_lastN, lastN_append_one]
    have := ih (as ++ [b])
    simpa using this

theorem dequeAppend_getLast {α : Type} (n : ℕ) (hn : 0 < n)
    (buf : List α) (x : α) :
    (dequeAppend n buf x).getLast? = some x := by
  rw [dequeAppend_eq_lastN]
  unfold lastN
  rw [List.drop_append_eq_append_drop]
  have h0 : (buf ++ [x]).length - n - buf.length = 0 := by
    simp only [List.length_append, List.length_singleton]
    omega
  rw [h0, List.drop_zero, List.getLast?_concat]

/-- A concrete configuration for concrete runs: threshold 50, minimum
silence 1 s, pre-roll capacity 2 blocks. -/
def testConfig : Config :=
  { trigger_threshold := 50, min_silence_time := 1, pre_buffer_maxlen := 2 }

/-- A second concrete configuration: threshold 50, minimum silence 2 s,
pre-roll capacity 4 blocks. -/
def testConfig2 : Config :=
  { trigger_threshold := 50, min_silence_time := 2, pre_buffer_maxlen := 4 }

/-! ### Claims -/

/-- C3: over every input trace, the start/stop side effects of the trigger
state machine replay as a legal alternation beginning from Listening
(`evalEvents` returns `some` of the final flag, so a start can only occur
from Listening and a stop only from Recording — never two starts without an
intervening stop); starts exceed stops exactly by the currently open
episode; and each completed episode was finalized exactly once: the
detection counter and the number of end-of-clip sentinels on the queue both
equal the number of stops. -/
theorem C3_start_stop_alternation {α : Type} (cfg : Config)
    (tr : List (α × ℚ × ℚ)) :
    evalEvents false (monRun cfg initState tr).events
        = some (monRun cfg initState tr).recording ∧
    countStart (monRun cfg initState tr).events
        = countStop (monRun cfg initState tr).events
          + (if (monRun cfg initState tr).recording then 1 else 0) ∧
    (monRun cfg initState tr).detections
        = countStop (monRun cfg initState tr).events ∧
    countNone (monRun cfg initState tr).audio_queue
        = countStop (monRun cfg initState tr).events :=
  monRun_machineInv cfg initState tr initState_machineInv

/-- C4: when a sequence of blocks is pushed onto the FIFO channel followed
by one end-of-clip marker, the consumer finalizes exactly one clip holding
exactly those blocks in push order (the marker takes effect only after every
block), leaving nothing pending. -/
theorem C4_channel_fifo {α : Type} (bs : List α) :
    audio_writer_run (bs.map some ++ [none])
      = ((if bs.isEmpty then [] else [bs]), []) := by
  unfold audio_writer_run
  rw [List.foldl_append, writerRun_blocks]
  cases bs <;> simp [writerStep]

/-- C5 as stated is false: the capacity is the Python `int` truncation, not
the ceiling. With the default configuration (pre-roll 2.0 s, sample rate
44100, block length 512) the code allocates `int(2.0*44100/512) = 172`
slots while `ceil` gives 173. -/
theorem C5_counterexample :
    preBufferCapacity 2 44100 512 = 172 ∧
    ⌈(2 * (44100 : ℚ) / 512)⌉ = 173 ∧ (172 : ℕ) ≠ 173 := by
  refine ⟨?_, ?_, by decide⟩
  · unfold preBufferCapacity
    have h : ⌊(2 * ((44100 : ℕ) : ℚ) / ((512 : ℕ) : ℚ))⌋ = 172 := by
      rw [Int.floor_eq_iff]
      norm_num
    rw [h]
    rfl
  · rw [Int.ceil_eq_iff]
    norm_num

/-- C5 amended: the pre-roll capacity is N = floor(pre-roll seconds × sample
rate / block length) (Python `int` truncation); with that capacity the
buffer after any push sequence is exactly the last N pushed blocks in push
order — its length never exceeds N and the oldest block is evicted first on
overflow. -/
theorem C5_amended_ring_semantics {α : Type} (pre : ℚ) (rate chunk : ℕ)
    (bs : List α) :
    preBufferCapacity pre rate chunk
        = (⌊pre * (rate : ℚ) / (chunk : ℚ)⌋).toNat ∧
    (bs.foldl (dequeAppend (preBufferCapacity pre rate chunk)) []).length
        ≤ preBufferCapacity pre rate chunk ∧
    bs.foldl (dequeAppend (preBufferCapacity pre rate chunk)) []
        = lastN (preBufferCapacity pre rate chunk) bs := by
  have h0 : (lastN (preBufferCapacity pre rate chunk) ([] : List α)) = [] := by
    simp [lastN]
  have h := foldl_dequeAppend_lastN (preBufferCapacity pre rate chunk) [] bs
  rw [h0] at h
  simp only [List.nil_append] at h
  exact ⟨rfl, by rw [h]; exact lastN_length_le _ _, h⟩

/-- C8: a reading exactly equal to the trigger threshold starts no recording
while Listening (the start test is strict `>`), and while Recording counts
as non-silent: the machine stays Recording, the block is still forwarded,
and any running silence timer is cleared (the silence test is strict `<`). -/
theorem C8_threshold_boundary {α : Type} :
    (∀ (cfg : Config) (s : MonState α) (d : α) (t : ℚ),
      s.recording = false →
      monStep cfg s d cfg.trigger_threshold t
        = { s with
            pre_buffer := dequeAppend cfg.pre_buffer_maxlen s.pre_buffer d }) ∧
    (∀ (cfg : Config) (s : MonState α) (d : α) (t : ℚ),
      s.recording = true →
      monStep cfg s d cfg.trigger_threshold t
        = { s with
            pre_buffer := dequeAppend cfg.pre_buffer_maxlen s.pre_buffer d,
            silence_start_time := none,
            audio_queue := s.audio_queue ++ [some d] }) := by
  constructor
  · intro cfg s d t hr
    exact monStep_listen_quiet cfg s d cfg.trigger_threshold t hr (lt_irrefl _)
  · intro cfg s d t hr
    exact monStep_rec_loud cfg s d cfg.trigger_threshold t hr (lt_irrefl _)

/-- Witness for C8 at threshold 50: a reading of exactly 50 while Listening
only rotates the deque; the same reading while Recording keeps the machine
Recording, forwards the block and clears the running timer. -/
theorem C8_threshold_boundary_witness :
    monStep testConfig (initState (α := ℕ)) 7 50 0
        = { initState with pre_buffer := [7] } ∧
    monStep testConfig
        { recording := true, pre_buffer := [], silence_start_time := some 0,
          detections := 0, audio_queue := [], events := [] } (7 : ℕ) 50 3
        = { recording := true, pre_buffer := [7], silence_start_time := none,
            detections := 0, audio_queue := [some 7], events := [] } := by
  constructor
  · exact (C8_threshold_boundary (α := ℕ)).1 testConfig initState 7 0 rfl
  · exact (C8_threshold_boundary (α := ℕ)).2 testConfig
      { recording := true, pre_buffer := [], silence_start_time := some 0,
        detections := 0, audio_queue := [], events := [] } 7 3 rfl

/-- C10: every processed block enters the pre-roll deque regardless of
state — the append (line 198) precedes the trigger decision and neither
`start_recording` nor `stop_recording` clears the deque; consequently the
seed flushed at a trigger already ends with the triggering block, and a
block can be written into one clip and reappear in the next clip through
the pre-roll seed (concretely: block 3 is in the finalized first clip and
in the pending second clip of the run below). -/
theorem C10_buffer_discipline :
    (∀ (α : Type) (cfg : Config) (s : MonState α) (d : α) (rms t : ℚ),
      (monStep cfg s d rms t).pre_buffer
        = dequeAppend cfg.pre_buffer_maxlen s.pre_buffer d) ∧
    (∀ (α : Type) (cfg : Config) (s : MonState α) (d : α) (rms t : ℚ),
      s.recording = false → cfg.trigger_threshold < rms →
      0 < cfg.pre_buffer_maxlen →
      (monStep cfg s d rms t).audio_queue
          = s.audio_queue
            ++ (dequeAppend cfg.pre_buffer_maxlen s.pre_buffer d).map some
            ++ [some d] ∧
      (dequeAppend cfg.pre_buffer_maxlen s.pre_buffer d).getLast? = some d) ∧
    (audio_writer_run (monRun testConfig initState
        [((1 : ℕ), 80, 0), (2, 5, 1), (3, 5, 3), (4, 80, 4)]).audio_queue
        = ([[1, 1, 2, 3]], [3, 4, 4]) ∧
      3 ∈ [1, 1, 2, 3] ∧ 3 ∈ [3, 4, 4]) := by
  refine ⟨?_, ?_, ?_, by decide, by decide⟩
  · intro α cfg s d rms t
    exact monStep_pre_buffer cfg s d rms t
  · intro α cfg s d rms t hr hq hn
    constructor
    · rw [monStep_listen_trigger cfg s d rms t hr hq]
    · exact dequeAppend_getLast cfg.pre_buffer_maxlen hn s.pre_buffer d
  · norm_num [monRun, monStep, dequeAppend, start_recording, stop_recording,
      initState, testConfig, List.foldl, audio_writer_run, writerStep]

/-- Witness for C10 at a concrete trigger: from Listening with deque [1, 2]
(capacity 2), a block 9 with reading 80 flushes seed [2, 9] — ending with
the triggering block — and then appends 9 again. -/
theorem C10_buffer_discipline_witness :
    (monStep testConfig
        { recording := false, pre_buffer := [1, 2], silence_start_time := none,
          detections := 0, audio_queue := [], events := [] } (9 : ℕ) 80 0).audio_queue
        = [some 2, some 9, some 9] ∧
    (dequeAppend 2 [1, 2] (9 : ℕ)).getLast? = some 9 := by
  have h := C10_buffer_discipline.2.1 ℕ testConfig
    { recording := false, pre_buffer := [1, 2], silence_start_time := none,
      detections := 0, audio_queue := [], events := [] } 9 80 0 rfl
    (by norm_num [testConfig]) (by norm_num [testConfig])
  constructor
  · rw [h.1]
    norm_num [dequeAppend, testConfig]
  · exact h.2

/-- C1 as stated is false: with capacity N = 2 and k = 2 blocks observed
while Listening, the claim predicts the clip starts
[some 1, some 2, some 3] (last min(N, k) = 2 pre-trigger blocks, then the
triggering block once); the code appends the triggering block to the deque
before the trigger decision, flushes the deque [2, 3], and then appends the
triggering block again, producing [some 2, some 3, some 3]. -/
theorem C1_counterexample :
    (monRun testConfig initState
        [((1 : ℕ), 5, 0), (2, 5, 1), (3, 80, 2)]).audio_queue
        = [some 2, some 3, some 3] ∧
    [some 2, some 3, some 3] ≠ [some (1 : ℕ), some 2, some 3] := by
  constructor
  · norm_num [monRun, monStep, dequeAppend, start_recording, stop_recording,
      initState, testConfig, List.foldl]
  · decide

/-- C1 amended: when a trigger fires after the blocks of `tr` have been
observed (machine in Listening), the clip pushed to the writer begins with
the last min(N, k+1) observed blocks including the triggering block — that
is, the last min(N-1, k) pre-trigger blocks followed by the triggering
block — oldest first, and then the triggering block once more. -/
theorem C1_amended_clip_seed {α : Type} (cfg : Config)
    (tr : List (α × ℚ × ℚ)) (b : α) (rms t : ℚ)
    (hl : (monRun cfg initState tr).recording = false)
    (hq : cfg.trigger_threshold < rms) :
    (monStep cfg (monRun cfg initState tr) b rms t).audio_queue
      = (monRun cfg initState tr).audio_queue
        ++ (lastN cfg.pre_buffer_maxlen
              (tr.map (fun x => x.1) ++ [b])).map some
        ++ [some b] := by
  rw [monStep_listen_trigger cfg _ b rms t hl hq]
  have hb : (monRun cfg initState tr).pre_buffer
      = lastN cfg.pre_buffer_maxlen (tr.map (fun x => x.1)) := by
    have h := monRun_pre_buffer cfg initState tr []
      (by simp [initState, lastN])
    simpa using h
  rw [hb, dequeAppend_eq_lastN, lastN_append_one]

/-- Witness for C1 amended: capacity 2, two quiet blocks 1, 2, then block 3
with reading 80 triggers; the newly pushed clip content is
`lastN 2 [1, 2, 3] ++ [3] = [2, 3, 3]`. -/
theorem C1_amended_clip_seed_witness :
    (monStep testConfig
        (monRun testConfig initState [((1 : ℕ), 5, 0), (2, 5, 1)])
        3 80 2).audio_queue
      = (monRun testConfig initState
          [((1 : ℕ), 5, 0), (2, 5, 1)]).audio_queue
        ++ [some 2, some 3, some 3] := by
  rw [C1_amended_clip_seed testConfig [((1 : ℕ), 5, 0), (2, 5, 1)] 3 80 2
    (by norm_num [monRun, monStep, dequeAppend, start_recording,
      stop_recording, initState, testConfig, List.foldl])
    (by norm_num [testConfig])]
  norm_num [lastN, testConfig]

/-- C2 as stated is false at the boundary: with minimum silence S = 2 s, a
recording whose silence timer started at t = 10 sees another silent block at
t = 12 — elapsed exactly 2 ≥ S — yet the strict `>` comparison does not
finalize: the machine is still Recording with zero detections. -/
theorem C2_counterexample :
    (monRun testConfig2 initState
        [((1 : ℕ), 80, 0), (2, 5, 10), (3, 5, 12)]).recording = true ∧
    (monRun testConfig2 initState
        [((1 : ℕ), 80, 0), (2, 5, 10), (3, 5, 12)]).detections = 0 ∧
    testConfig2.min_silence_time ≤ (12 : ℚ) - 10 := by
  refine ⟨?_, ?_, by norm_num [testConfig2]⟩ <;>
    norm_num [monRun, monStep, dequeAppend, start_recording, stop_recording,
      initState, testConfig2, List.foldl]

/-- C2 amended: once Recording with threshold T and minimum silence S, (i) a
run of readings all < T whose times stay within S of the running silence
timer (elapsed ≤ S) leaves the machine Recording with the timer unchanged,
finalizes nothing, and still forwards every block; (ii) a silent reading
with elapsed strictly greater than S finalizes the clip — end-of-clip
sentinel pushed, detection counter incremented — and returns to Listening;
(iii) a reading ≥ T clears the silence timer and keeps the machine
Recording. -/
theorem C2_amended_hysteresis {α : Type} :
    (∀ (cfg : Config) (s : MonState α) (t0 : ℚ) (run : List (α × ℚ × ℚ)),
      s.recording = true → s.silence_start_time = some t0 →
      (∀ x ∈ run, x.2.1 < cfg.trigger_threshold ∧
        ¬ cfg.min_silence_time < x.2.2 - t0) →
      (monRun cfg s run).recording = true ∧
      (monRun cfg s run).silence_start_time = some t0 ∧
      (monRun cfg s run).detections = s.detections ∧
      (monRun cfg s run).events = s.events ∧
      (monRun cfg s run).audio_queue
        = s.audio_queue ++ run.map (fun x => some x.1)) ∧
    (∀ (cfg : Config) (s : MonState α) (d : α) (rms t t0 : ℚ),
      s.recording = true → s.silence_start_time = some t0 →
      rms < cfg.trigger_threshold → cfg.min_silence_time < t - t0 →
      (monStep cfg s d rms t).recording = false ∧
      (monStep cfg s d rms t).detections = s.detections + 1 ∧
      (monStep cfg s d rms t).audio_queue
        = s.audio_queue ++ [some d] ++ [none] ∧
      (monStep cfg s d rms t).events = s.events ++ [Ev.stop]) ∧
    (∀ (cfg : Config) (s : MonState α) (d : α) (rms t : ℚ),
      s.recording = true → ¬ rms < cfg.trigger_threshold →
      (monStep cfg s d rms t).recording = true ∧
      (monStep cfg s d rms t).silence_start_time = none ∧
      (monStep cfg s d rms t).detections = s.detections ∧
      (monStep cfg s d rms t).events = s.events) := by
  refine ⟨?_, ?_, ?_⟩
  · intro cfg s t0 run hr hs hrun
    induction run generalizing s with
    | nil => exact ⟨hr, hs, rfl, rfl, by simp [monRun]⟩
    | cons x tl ih =>
      have hx := hrun x (List.mem_cons_self x tl)
      have step : monRun cfg s (x :: tl)
          = monRun cfg (monStep cfg s x.1 x.2.1 x.2.2) tl := rfl
      rw [step, monStep_rec_silent_keep cfg s x.1 x.2.1 x.2.2 t0 hr hx.1 hs
        hx.2]
      have h := ih { s with pre_buffer := dequeAppend cfg.pre_buffer_maxlen s.pre_buffer x.1, audio_queue := s.audio_queue ++ [some x.1] } hr hs (fun y hy => hrun y (List.mem_cons_of_mem x hy))
      simpa [List.append_assoc] using h
  · intro cfg s d rms t t0 hr hs hq ht
    rw [monStep_rec_silent_stop cfg s d rms t t0 hr hq hs ht]
    simp
  · intro cfg s d rms t hr hq
    rw [monStep_rec_loud cfg s d rms t hr hq]
    simp [hr]

/-- Witness for C2 amended at threshold 50, minimum silence 1 s: a silent
block within the window keeps Recording with the timer fixed; a silent
block at elapsed 3 > 1 finalizes with one detection and the sentinel; a
reading of 80 clears the timer and keeps Recording. -/
theorem C2_amended_hysteresis_witness :
    ((monRun testConfig
        { recording := true, pre_buffer := [], silence_start_time := some 0,
          detections := 0, audio_queue := [], events := [] }
        [((7 : ℕ), 5, 1)]).recording = true ∧
      (monRun testConfig
        { recording := true, pre_buffer := [], silence_start_time := some 0,
          detections := 0, audio_queue := [], events := [] }
        [((7 : ℕ), 5, 1)]).silence_start_time = some 0) ∧
    ((monStep testConfig
        { recording := true, pre_buffer := [], silence_start_time := some 0,
          detections := 0, audio_queue := [], events := [] }
        (7 : ℕ) 5 3).recording = false ∧
      (monStep testConfig
        { recording := true, pre_buffer := [], silence_start_time := some 0,
          detections := 0, audio_queue := [], events := [] }
        (7 : ℕ) 5 3).detections = 1) ∧
    ((monStep testConfig
        { recording := true, pre_buffer := [], silence_start_time := some 0,
          detections := 0, audio_queue := [], events := [] }
        (7 : ℕ) 80 2).recording = true ∧
      (monStep testConfig
        { recording := true, pre_buffer := [], silence_start_time := some 0,
          detections := 0, audio_queue := [], events := [] }
        (7 : ℕ) 80 2).silence_start_time = none) := by
  refine ⟨?_, ?_, ?_⟩
  · have h := (C2_amended_hysteresis (α := ℕ)).1 testConfig
      { recording := true, pre_buffer := [], silence_start_time := some 0,
        detections := 0, audio_queue := [], events := [] }
      0 [((7 : ℕ), 5, 1)] rfl rfl
      (by intro x hx; simp at hx; subst hx; norm_num [testConfig])
    exact ⟨h.1, h.2.1⟩
  · have h := (C2_amended_hysteresis (α := ℕ)).2.1 testConfig
      { recording := true, pre_buffer := [], silence_start_time := some 0,
        detections := 0, audio_queue := [], events := [] }
      7 5 3 0 rfl rfl (by norm_num [testConfig]) (by norm_num [testConfig])
    exact ⟨h.1, h.2.1⟩
  · have h := (C2_amended_hysteresis (α := ℕ)).2.2 testConfig
      { recording := true, pre_buffer := [], silence_start_time := some 0,
        detections := 0, audio_queue := [], events := [] }
      7 80 2 rfl (by norm_num [testConfig])
    exact ⟨h.1, h.2.1⟩

/-- C6 names intended behavior the code does not implement: at shutdown
`clean_up` pushes no synthetic end-of-clip sentinel and the writer exits on
the stop event without draining or finalizing, so a clip in progress is
discarded. Concretely, with one consumed block `1` of an unfinalized clip,
the saved-clip list at shutdown is empty and the block sits in the dropped
`recording_data`. -/
theorem C6_shutdown_discards_clip :
    shutdownOutcome [some (1 : ℕ)] = ([], [1]) ∧
    clean_up_queue_pushes (α := ℕ) = [] := by
  constructor
  · rfl
  · rfl

/-- C9: `calculate_rms` is non-negative, and returns 0 on an empty block and
on an all-zero block. Samples are decoded 16-bit integers, so a non-finite
sample cannot occur and `np.nan_to_num` is the identity; the squares wrap in
int16, and when their mean comes out negative the guard at line 101 returns
0, so the result is a genuine non-negative real, never NaN or Infinity. -/
theorem C9_rms_nonneg_zero (data : List ℤ) :
    0 ≤ calculate_rms data ∧
    calculate_rms [] = 0 ∧
    ((∀ x ∈ data, x = 0) → calculate_rms data = 0) := by
  refine ⟨?_, by simp [calculate_rms], ?_⟩
  · unfold calculate_rms
    split
    · exact le_refl 0
    · split
      · exact le_refl 0
      · exact Real.sqrt_nonneg _
  · intro hz
    have hs : (data.map fun x =>
        ((int16wrap (nan_to_num x * nan_to_num x) : ℤ) : ℚ)).sum = 0 := by
      apply List.sum_eq_zero
      intro y hy
      simp only [List.mem_map] at hy
      obtain ⟨x, hx, rfl⟩ := hy
      rw [hz x hx]
      norm_num [nan_to_num, int16wrap]
    unfold calculate_rms
    rw [hs]
    simp

/-- Witness for C9: the RMS of the one-sample block [200] — whose int16
square wraps to -25536, making the mean negative and the guard fire — is
still non-negative, and the all-zero two-sample block has RMS 0. -/
theorem C9_rms_nonneg_zero_witness :
    0 ≤ calculate_rms [200] ∧
    0 ≤ calculate_rms [0, 0] ∧ calculate_rms [0, 0] = 0 :=
  ⟨(C9_rms_nonneg_zero [200]).1, (C9_rms_nonneg_zero [0, 0]).1,
   (C9_rms_nonneg_zero [0, 0]).2.2 (by decide)⟩

/-- C7: for each target frequency `analyze_frequencies` reports the
magnitude of the analysis bin whose frequency is nearest to the target
(first such bin on ties); a target is detected exactly when that magnitude
exceeds twice the mean magnitude over all bins; and the clip-level flag is
true iff at least one target is detected. -/
theorem C7_spectral_classification (rate : ℚ) (targets : List ℚ)
    (mag : List ℚ) (hm : mag ≠ []) :
    (analyze_frequencies rate targets mag).2
        = targets.map (fun f => (f, nearestMagnitude rate mag f)) ∧
    ((analyze_frequencies rate targets mag).1 = true ↔
      ∃ f ∈ targets,
        mag.sum / (mag.length : ℚ) * 2 < nearestMagnitude rate mag f) ∧
    (∀ f : ℚ, nearestIdx mag.length rate f < mag.length ∧
      ∀ j < mag.length,
        |(fftfreqBins mag.length rate).getD
            (nearestIdx mag.length rate f) 0 - f|
          ≤ |(fftfreqBins mag.length rate).getD j 0 - f|) := by
  refine ⟨?_, ?_, ?_⟩
  · unfold analyze_frequencies
    rw [analyze_foldl]
    simp [nearestMagnitude]
  · unfold analyze_frequencies
    rw [analyze_foldl]
    simp [nearestMagnitude, List.any_eq_true]
  · intro f
    have hn0 : 0 < mag.length := List.length_pos.mpr hm
    have hbins : (fftfreqBins mag.length rate).length = mag.length := by
      simp [fftfreqBins]
    have hdlen : ((fftfreqBins mag.length rate).map
        (fun x => |x - f|)).length = mag.length := by
      simp [hbins]
    have hgetd : ∀ k, k < mag.length →
        ((fftfreqBins mag.length rate).map (fun x => |x - f|)).getD k 0
          = |(fftfreqBins mag.length rate).getD k 0 - f| := by
      intro k hk
      have hk1 : k < ((fftfreqBins mag.length rate).map
          (fun x => |x - f|)).length := by rw [hdlen]; exact hk
      have hk2 : k < (fftfreqBins mag.length rate).length := by
        rw [hbins]; exact hk
      rw [List.getD_eq_getElem _ _ hk1, List.getD_eq_getElem _ _ hk2,
        List.getElem_map]
    cases hmi : minWithIdx ((fftfreqBins mag.length rate).map
        (fun x => |x - f|)) with
    | none =>
      exfalso
      have he := (minWithIdx_eq_none_iff _).1 hmi
      rw [he] at hdlen
      simp at hdlen
      omega
    | some iv =>
      obtain ⟨hlt, hget, hmin⟩ := minWithIdx_spec _ iv.1 iv.2 (by rw [hmi])
      have hni : nearestIdx mag.length rate f = iv.1 := by
        simp [nearestIdx, hmi]
      rw [hdlen] at hlt
      refine ⟨by rw [hni]; exact hlt, ?_⟩
      intro j hj
      rw [hni]
      have h1 := hgetd iv.1 hlt
      have h2 := hgetd j hj
      rw [← h1, ← h2, hget]
      exact hmin j (by rw [hdlen]; exact hj)

/-- Witness for C7: spectrum [4, 1, 1, 1] at rate 8 with target 1 — bins
are at 0, 2, -4, -2 Hz, the nearest bin to 1 Hz is bin 0 (first on the
0-vs-2 tie), its magnitude 4 exceeds twice the mean 7/4, so the report pairs
target 1 with magnitude 4 and the bin index is in range. -/
theorem C7_spectral_classification_witness :
    (analyze_frequencies 8 [(1 : ℚ)] [4, 1, 1, 1]).2
        = [(1, nearestMagnitude 8 [4, 1, 1, 1] 1)] ∧
    nearestIdx 4 8 1 < 4 := by
  constructor
  · exact (C7_spectral_classification 8 [1] [4, 1, 1, 1] (by simp)).1
  · exact ((C7_spectral_classification 8 [1] [4, 1, 1, 1] (by simp)).2.2 1).1

end PanelQC
